import Mathlib

/-!
Verification of the sass-import-modules resolution pipeline (src/index.js).

The module resolves sass import specifiers by trying an ordered list of
resolver attempts: a local filesystem lookup and a node-module lookup for
each base directory of a computed include-path list.  External
collaborators (the fs.stat call, the npm resolve call, and path.join) are
modelled as an environment record; the callback-driven pipeline is
embedded as a pure recursive function returning the trace of executed
attempts together with the list of completion-callback events.
-/

set_option maxRecDepth 4000

/-- Environment of external collaborators.
  stat models fs.stat: for a path, an (error, stats-object) callback pair.
  nodeRes models the npm resolve call: for (request, basedir), an
  (error, result) callback pair.
  join models path.join on two segments. -/
structure Env where
  stat : String → Option String × Option Unit
  nodeRes : String → String → Option String × Option String
  join : String → String → String

/-- JavaScript truthiness of a possibly-absent string value: null and
undefined are falsy, and so is the empty string. -/
def truthy : Option String → Bool
  | none => false
  | some s => decide (s ≠ "")

/-- JavaScript Boolean coercion used by filter on include-path entries:
undefined entries and empty strings are dropped. -/
def jsTruthyStr : Option String → Bool
  | none => false
  | some s => decide (s ≠ "")

/-- Whether the pattern list is an initial segment of the other list
(character-by-character comparison, as String.indexOf performs). -/
def isPrefixList : List Char → List Char → Bool
  | [], _ => true
  | _ :: _, [] => false
  | a :: as, b :: bs => a = b && isPrefixList as bs

/-- Whether the pattern occurs as a contiguous segment anywhere in the
haystack: the substring test performed by file.indexOf(ext) in the
source (an occurrence at any position counts). -/
def strContains : List Char → List Char → Bool
  | [], pat => isPrefixList pat []
  | h :: t, pat => isPrefixList pat (h :: t) || strContains t pat

/-- Embeds function extension (src/index.js lines 18-24): append ext to
file unless ext already occurs somewhere in file
(if (!~file.indexOf(ext)) file += ext). -/
def extension (file ext : String) : String :=
  if !strContains file.data ext.data then file ++ ext else file

/-- Embeds function node (src/index.js lines 36-46): resolve the
extension-normalized specifier from base; if the callback carries no
truthy result, resolve the original specifier and pass its callback pair
through unchanged. -/
def node (env : Env) (base file ext : String) : Option String × Option String :=
  let r1 := env.nodeRes (extension file ext) base
  if truthy r1.2 then (none, r1.2)
  else env.nodeRes file base

/-- The sequence of (request, basedir) queries the node resolver issues,
read off the control flow of function node: the extended specifier is
always queried first, and the bare specifier only when the first query
returned no truthy result. -/
def nodeQueries (env : Env) (base file ext : String) : List (String × String) :=
  if truthy (env.nodeRes (extension file ext) base).2 then
    [(extension file ext, base)]
  else
    [(extension file ext, base), (file, base)]

/-- Embeds function exists (src/index.js lines 87-91): the file exists
when fs.stat reported no error and a stats object (!error && !!stat). -/
def existsCheck (env : Env) (file : String) : Bool :=
  (env.stat file).1.isNone && (env.stat file).2.isSome

/-- Embeds function local (src/index.js lines 58-65): join base and file,
normalize the extension, and report the path when the existence check
succeeds, null otherwise; the callback error slot is always null. -/
def localResolve (env : Env) (base file ext : String) : Option String × Option String :=
  let f := extension (env.join base file) ext
  if existsCheck env f then (none, some f) else (none, none)

/-- Scan of Node's posix path.dirname: walking indices from i down to 1,
the first index holding a separator that is followed (further right) by a
non-separator character; matchedSlash tracks whether only separators have
been seen so far. -/
def findEnd (cs : List Char) : Nat → Bool → Option Nat
  | 0, _ => none
  | i + 1, matchedSlash =>
    if cs.getD (i + 1) ' ' = '/' then
      if matchedSlash then findEnd cs i matchedSlash else some (i + 1)
    else findEnd cs i false

/-- Node's posix path.dirname, modelled from the upstream algorithm: the
empty path gives the dot directory, a path with no usable separator gives
the dot directory or the root, and otherwise the prefix before the last
separator that has content after it. -/
def dirname (p : String) : String :=
  if p.data.length = 0 then "."
  else
    match findEnd p.data (p.data.length - 1) true with
    | none => if p.data.getD 0 ' ' = '/' then "/" else "."
    | some e =>
      if p.data.getD 0 ' ' = '/' ∧ e = 1 then "//" else String.mk (p.data.take e)

/-- JavaScript String.charAt: the one-character string at the index, or
the empty string when the index is out of range. -/
def charAt (s : String) (i : Nat) : String :=
  match s.data.get? i with
  | some c => String.mk [c]
  | none => ""

/-- Embeds the importer factory (src/index.js lines 100-103): root
defaults to the process working directory, ext defaults to .scss, and a
supplied ext not starting with a dot gets one prepended
(if (ext.charAt(0) !== lit-dot) ext = lit-dot + ext). -/
def importerConfig (cwd : String) (root ext : Option String) : String × String :=
  let r := root.getD cwd
  let e0 := ext.getD ".scss"
  let e := if charAt e0 0 ≠ "." then "." ++ e0 else e0
  (r, e)

/-- The two resolver strategies bound per base directory. -/
inductive Strategy
  | localS
  | nodeS
deriving DecidableEq, Repr

/-- Dispatch one bound resolver attempt, yielding its callback
(error, file) pair. -/
def runAttempt (env : Env) (s : Strategy) (base url ext : String) :
    Option String × Option String :=
  match s with
  | Strategy.localS => localResolve env base url ext
  | Strategy.nodeS => node env base url ext

/-- Observable completion events of one resolution call: done with a
resolved file, done with no arguments, or a thrown error. -/
inductive Event
  | success (file : String)
  | noArgs
  | thrown (msg : String)
deriving DecidableEq, Repr

/-- Embeds the run/next loop (src/index.js lines 127-168): shift the next
attempt off the stack and run it; its callback folds the attempt error
into the carried error (error = error or err), returns the file early
when truthy, and on an empty stack throws when an error is carried or
calls done() bare; otherwise it recurses, passing the current attempt
error err (exactly as the source does, not the folded error).  The
result pairs the list of attempts that actually executed with the list
of completion events; an empty stack executes nothing (the source would
fail calling shift() there, which the entry point never reaches). -/
def run (env : Env) (url prev ext : String) :
    List (Strategy × String) → Option String →
      List (Strategy × String) × List Event
  | [], _ => ([], [])
  | (s, base) :: rest, error =>
    let err := (runAttempt env s base url ext).1
    let file := (runAttempt env s base url ext).2
    let err2 := if error.isSome then error else err
    if truthy file then
      ([(s, base)], [Event.success (file.getD "")])
    else if rest.isEmpty then
      if err2.isSome then
        ([(s, base)],
          [Event.thrown ("Could not find file: " ++ url ++ " from parent " ++ prev)])
      else ([(s, base)], [Event.noArgs])
    else
      ((s, base) :: (run env url prev ext rest err).1,
        (run env url prev ext rest err).2)

/-- Embeds the include-path computation (src/index.js line 117):
concat the host-supplied includePaths (entries possibly undefined), the
directory of the previous file, and the root, then filter(Boolean). -/
def includesOf (includePaths : List (Option String)) (prev root : String) :
    List String :=
  ((includePaths ++ [some (dirname prev), some root]).filter jsTruthyStr).filterMap id

/-- Modelled from the spec: the include-path list in the spec's words —
the configured include paths in their given order with empty and
undefined entries removed, then the directory of the previous file when
non-empty, then the root when non-empty. -/
def specIncludePaths (ip : List (Option String)) (dirPrev root : String) :
    List String :=
  (ip.filterMap id).filter (fun s => decide (s ≠ ""))
    ++ (if dirPrev = "" then [] else [dirPrev])
    ++ (if root = "" then [] else [root])

/-- Embeds the attempt-stack construction (src/index.js lines 118-120):
reduce over [local, node], concatenating one bound attempt per include
path for each strategy. -/
def buildStack (includes : List String) : List (Strategy × String) :=
  [Strategy.localS, Strategy.nodeS].foldl
    (fun arr fn => arr ++ includes.map (fun base => (fn, base))) []

/-- Embeds the returned importer function resolve (src/index.js lines
114-169): build the include-path list and the attempt stack, then start
the run loop with no carried error. -/
def resolveCall (env : Env) (root ext : String)
    (includePaths : List (Option String)) (url prev : String) :
    List (Strategy × String) × List Event :=
  run env url prev ext (buildStack (includesOf includePaths prev root)) none

/-- A pattern is an initial segment of a list exactly when the list is
the pattern followed by some tail. -/
lemma isPrefixList_iff (p : List Char) :
    ∀ l, isPrefixList p l = true ↔ ∃ t, l = p ++ t := by
  induction p with
  | nil =>
    intro l
    simp [isPrefixList]
  | cons a as ih =>
    intro l
    cases l with
    | nil => simp [isPrefixList]
    | cons b bs =>
      simp only [isPrefixList, Bool.and_eq_true, decide_eq_true_eq, ih bs,
        List.cons_append, List.cons.injEq]
      constructor
      · rintro ⟨hab, t, ht⟩
        exact ⟨t, hab.symm, ht⟩
      · rintro ⟨t, hba, ht⟩
        exact ⟨hba.symm, t, ht⟩

/-- The indexOf-style containment test succeeds exactly when the pattern
occurs as a contiguous segment somewhere in the list. -/
lemma strContains_iff (p : List Char) :
    ∀ l, strContains l p = true ↔ ∃ pre suf, l = pre ++ (p ++ suf) := by
  intro l
  induction l with
  | nil =>
    simp only [strContains, isPrefixList_iff]
    constructor
    · rintro ⟨t, ht⟩
      exact ⟨[], t, ht⟩
    · rintro ⟨pre, suf, h⟩
      rcases List.append_eq_nil.mp h.symm with ⟨hp, hq⟩
      exact ⟨suf, by simp [hp, hq]⟩
  | cons h t ih =>
    simp only [strContains, Bool.or_eq_true, isPrefixList_iff, ih]
    constructor
    · rintro (⟨s, hs⟩ | ⟨pre, suf, hps⟩)
      · exact ⟨[], s, by simpa using hs⟩
      · exact ⟨h :: pre, suf, by simp [hps]⟩
    · rintro ⟨pre, suf, hps⟩
      cases pre with
      | nil => exact Or.inl ⟨suf, by simpa using hps⟩
      | cons x xs =>
        simp only [List.cons_append, List.cons.injEq] at hps
        exact Or.inr ⟨xs, suf, hps.2⟩

/-- C7: the extension normalizer returns the path unchanged when the
extension occurs as a substring anywhere in the path (not only as a
suffix), and otherwise appends the extension at the end; it is a total
pure function on strings. -/
theorem extension_substring_behavior (s e : String) :
    (strContains s.data e.data = true ↔
      ∃ pre suf, s.data = pre ++ (e.data ++ suf))
    ∧ (strContains s.data e.data = true → extension s e = s)
    ∧ (strContains s.data e.data = false → extension s e = s ++ e) := by
  refine ⟨strContains_iff e.data s.data, ?_, ?_⟩
  · intro h
    simp [extension, h]
  · intro h
    simp [extension, h]

/-- Witness for C7 at a concrete input whose directory name carries the
extension token: the path is returned unchanged. -/
theorem extension_substring_behavior_witness :
    strContains (String.data "a.scss/y") (String.data ".scss") = true
    ∧ extension "a.scss/y" ".scss" = "a.scss/y" :=
  ⟨by decide, (extension_substring_behavior "a.scss/y" ".scss").2.1 (by decide)⟩

/-- C8: extension normalization is idempotent. -/
theorem extension_normalization_idempotent (s e : String) :
    extension (extension s e) e = extension s e := by
  cases h : strContains s.data e.data with
  | true =>
    have hs : extension s e = s := by simp [extension, h]
    rw [hs, hs]
  | false =>
    have hs : extension s e = s ++ e := by simp [extension, h]
    rw [hs]
    have hc : strContains (s.data ++ e.data) e.data = true :=
      (strContains_iff e.data (s.data ++ e.data)).2 ⟨s.data, [], by simp⟩
    simp [extension, hc]

/-- The dirname scan only ever reports an index of at least one. -/
lemma findEnd_ge_one (cs : List Char) :
    ∀ i b e, findEnd cs i b = some e → 1 ≤ e := by
  intro i
  induction i with
  | zero =>
    intro b e h
    simp [findEnd] at h
  | succ n ih =>
    intro b e h
    simp only [findEnd] at h
    split at h
    · split at h
      · exact ih _ e h
      · cases h
        omega
    · exact ih _ e h

/-- Node's posix dirname never returns the empty string: the fallback
results are the dot directory or a root form, and the sliced prefix ends
at an index of at least one inside a non-empty character list. -/
lemma dirname_ne_empty (p : String) : dirname p ≠ "" := by
  unfold dirname
  split
  · simp
  · rename_i hlen
    split
    · split <;> simp
    · rename_i e he
      split
      · simp
      · have hge : 1 ≤ e := findEnd_ge_one p.data _ _ _ he
        have hne : p.data ≠ [] := by
          intro hnil
          exact hlen (by simp [hnil])
        obtain ⟨c, cs, hc⟩ := List.exists_cons_of_ne_nil hne
        obtain ⟨e1, he1⟩ : ∃ e1, e = e1 + 1 := ⟨e - 1, by omega⟩
        rw [hc, he1]
        intro hcontra
        exact List.cons_ne_nil c (cs.take e1)
          (by simpa using congrArg String.data hcontra)

/-- The directory of the previous file always survives the truthiness
filter and so is a member of the computed include-path list. -/
lemma dirname_mem_includesOf (ip : List (Option String)) (prev root : String) :
    dirname prev ∈ includesOf ip prev root := by
  unfold includesOf
  rw [List.mem_filterMap]
  refine ⟨some (dirname prev), ?_, rfl⟩
  rw [List.mem_filter]
  refine ⟨by simp, ?_⟩
  simp [jsTruthyStr, dirname_ne_empty prev]

/-- The computed include-path list is never empty. -/
lemma includesOf_ne_nil (ip : List (Option String)) (prev root : String) :
    includesOf ip prev root ≠ [] :=
  List.ne_nil_of_mem (dirname_mem_includesOf ip prev root)

/-- The reduce over the two strategies yields all local attempts over the
include paths followed by all package attempts over the include paths. -/
lemma buildStack_eq (incl : List String) :
    buildStack incl
      = incl.map (fun b => (Strategy.localS, b))
        ++ incl.map (fun b => (Strategy.nodeS, b)) := rfl

/-- C5: the base-directory list equals the host-supplied include paths in
order, then the directory of the previously resolved file, then the
configured root, with undefined and empty entries removed and the order
of the rest preserved. -/
theorem includePaths_ordered_computation (ip : List (Option String))
    (prev root : String) :
    includesOf ip prev root = specIncludePaths ip (dirname prev) root := by
  unfold includesOf specIncludePaths
  rw [List.filter_append, List.filterMap_append]
  conv_rhs => rw [List.append_assoc]
  congr 1
  · induction ip with
    | nil => rfl
    | cons h t ih =>
      cases h with
      | none => simpa [jsTruthyStr, List.filter_cons, List.filterMap_cons] using ih
      | some s =>
        by_cases hs : s = ""
        · simp [jsTruthyStr, hs, List.filter_cons, List.filterMap_cons, ih]
        · simp [jsTruthyStr, hs, List.filter_cons, List.filterMap_cons, ih]
  · by_cases hd : dirname prev = "" <;> by_cases hr : root = "" <;>
      simp [jsTruthyStr, hd, hr, List.filter_cons, List.filterMap_cons]

/-- Unfolding equation for one step of the run loop. -/
lemma run_cons (env : Env) (url prev ext : String) (s : Strategy)
    (base : String) (rest : List (Strategy × String)) (error : Option String) :
    run env url prev ext ((s, base) :: rest) error
      = if truthy (runAttempt env s base url ext).2 then
          ([(s, base)],
            [Event.success ((runAttempt env s base url ext).2.getD "")])
        else if rest.isEmpty then
          if (if error.isSome then error
              else (runAttempt env s base url ext).1).isSome then
            ([(s, base)],
              [Event.thrown
                ("Could not find file: " ++ url ++ " from parent " ++ prev)])
          else ([(s, base)], [Event.noArgs])
        else
          ((s, base)
              :: (run env url prev ext rest (runAttempt env s base url ext).1).1,
            (run env url prev ext rest (runAttempt env s base url ext).1).2) := rfl

/-- A list with a cons cell on its right side is not empty. -/
lemma isEmpty_append_cons {α : Type} (l : List α) (a : α) (r : List α) :
    (l ++ a :: r).isEmpty = false := by
  cases l <;> rfl

/-- On a non-empty attempt stack the run loop produces exactly one
completion event. -/
lemma run_events_one (env : Env) (url prev ext : String) :
    ∀ (stack : List (Strategy × String)) (e : Option String), stack ≠ [] →
      ((run env url prev ext stack e).2).length = 1 := by
  intro stack
  induction stack with
  | nil =>
    intro e h
    exact absurd rfl h
  | cons a rest ih =>
    intro e _
    obtain ⟨s, base⟩ := a
    rw [run_cons]
    split
    · rfl
    · split
      · split <;> first | rfl | (split <;> rfl)
      · rename_i hrest
        exact ih _ (fun hn => hrest (by simp [hn]))

/-- The first executed attempt is the head of the attempt stack. -/
lemma run_exec_head (env : Env) (url prev ext : String)
    (stack : List (Strategy × String)) (e : Option String) :
    ((run env url prev ext stack e).1).head? = stack.head? := by
  cases stack with
  | nil => rfl
  | cons a rest =>
    obtain ⟨s, base⟩ := a
    rw [run_cons]
    split
    · rfl
    · split
      · split <;> first | rfl | (split <;> rfl)
      · rfl

/-- When every attempt before a given one yields no truthy file and that
attempt yields one, the run loop executes exactly the leading attempts
plus that one, and fires the success event with its file. -/
lemma run_shortCircuit (env : Env) (url prev ext : String) :
    ∀ (s1 : List (Strategy × String)) (a : Strategy × String)
      (s2 : List (Strategy × String)) (e : Option String),
      (∀ x ∈ s1, truthy (runAttempt env x.1 x.2 url ext).2 = false) →
      truthy (runAttempt env a.1 a.2 url ext).2 = true →
      run env url prev ext (s1 ++ a :: s2) e
        = (s1 ++ [a],
            [Event.success ((runAttempt env a.1 a.2 url ext).2.getD "")]) := by
  intro s1
  induction s1 with
  | nil =>
    intro a s2 e _ hsucc
    obtain ⟨s, base⟩ := a
    rw [List.nil_append, run_cons]
    simp only at hsucc
    rw [hsucc]
    simp
  | cons x xs ih =>
    intro a s2 e hfail hsucc
    obtain ⟨s, base⟩ := x
    rw [List.cons_append, run_cons]
    have hx : truthy (runAttempt env s base url ext).2 = false :=
      hfail (s, base) (List.mem_cons_self _ _)
    rw [hx, isEmpty_append_cons]
    have hrec := ih a s2 (runAttempt env s base url ext).1
      (fun y hy => hfail y (List.mem_cons_of_mem _ hy)) hsucc
    simp only [Bool.false_eq_true, if_false, hrec]
    simp

/-- C1: the ordered attempt list is all local attempts in include-path
order followed by all package attempts in include-path order, and the
first attempt producing a truthy file terminates the pipeline with a
single success event reporting that file, with no later attempt
executing. -/
theorem attempt_order_and_short_circuit (env : Env) (root ext url prev : String)
    (ip : List (Option String)) (s1 s2 : List (Strategy × String))
    (a : Strategy × String)
    (hstack : buildStack (includesOf ip prev root) = s1 ++ a :: s2)
    (hfail : ∀ x ∈ s1, truthy (runAttempt env x.1 x.2 url ext).2 = false)
    (hsucc : truthy (runAttempt env a.1 a.2 url ext).2 = true) :
    buildStack (includesOf ip prev root)
      = (includesOf ip prev root).map (fun b => (Strategy.localS, b))
        ++ (includesOf ip prev root).map (fun b => (Strategy.nodeS, b))
    ∧ resolveCall env root ext ip url prev
      = (s1 ++ [a],
          [Event.success ((runAttempt env a.1 a.2 url ext).2.getD "")]) := by
  refine ⟨buildStack_eq _, ?_⟩
  unfold resolveCall
  rw [hstack]
  exact run_shortCircuit env url prev ext s1 a s2 none hfail hsucc

/-- Environment for the C1 witness: every stat succeeds, the module
resolver never finds anything. -/
def envC1 : Env :=
  { stat := fun _ => (none, some ())
  , nodeRes := fun _ _ => (none, none)
  , join := fun b f => b ++ "/" ++ f }

/-- Witness for C1: with one include path, the first (local) attempt
succeeds and the pipeline stops there with its file. -/
theorem attempt_order_and_short_circuit_witness :
    resolveCall envC1 "" ".scss" [] "u" ""
      = ([(Strategy.localS, ".")], [Event.success "./u.scss"]) :=
  (attempt_order_and_short_circuit envC1 "" ".scss" "u" "" [] []
    [(Strategy.nodeS, ".")] (Strategy.localS, ".") rfl
    (fun x hx => absurd hx (List.not_mem_nil x)) rfl).2

/-- C4: every resolution call fires the completion callback exactly once:
the event list of a whole call always has length one. -/
theorem completion_callback_fires_once (env : Env) (root ext : String)
    (ip : List (Option String)) (url prev : String) :
    ((resolveCall env root ext ip url prev).2).length = 1 := by
  unfold resolveCall
  apply run_events_one
  obtain ⟨b, L, hbl⟩ := List.exists_cons_of_ne_nil (includesOf_ne_nil ip prev root)
  rw [buildStack_eq, hbl]
  simp

/-- Environment in which every stat succeeds, so the very first local
attempt resolves. -/
def envLocalHit : Env :=
  { stat := fun _ => (none, some ())
  , nodeRes := fun _ _ => (none, none)
  , join := fun b f => b ++ "/" ++ f }

/-- Counterexample to C10 as stated: with no include paths, no root and a
bare previous name, the call still runs (the base list is ["."]), but the
first local attempt succeeds, so no package attempt ever executes — the
executed-attempt trace holds only the one local attempt. -/
theorem local_success_executes_no_package_attempt :
    (resolveCall envLocalHit "" ".scss" [] "u" "").1 = [(Strategy.localS, ".")]
    ∧ (resolveCall envLocalHit "" ".scss" [] "u" "").2
        = [Event.success "./u.scss"] :=
  ⟨rfl, rfl⟩

/-- C10 (amended): the base-directory list is non-empty for every call,
because the directory of the previous file is never the empty string and
survives the truthiness filter; hence the attempt stack contains at
least one local and one package attempt, and the first executed attempt
is always a local attempt — package attempts execute only when no
earlier attempt resolves. -/
theorem base_list_nonempty_first_attempt_local (env : Env) (root ext : String)
    (ip : List (Option String)) (url prev : String) :
    dirname prev ≠ ""
    ∧ includesOf ip prev root ≠ []
    ∧ (∃ b, (Strategy.localS, b) ∈ buildStack (includesOf ip prev root))
    ∧ (∃ b, (Strategy.nodeS, b) ∈ buildStack (includesOf ip prev root))
    ∧ (∃ b, ((resolveCall env root ext ip url prev).1).head?
          = some (Strategy.localS, b)) := by
  have h1 := dirname_mem_includesOf ip prev root
  refine ⟨dirname_ne_empty prev, includesOf_ne_nil ip prev root, ?_, ?_, ?_⟩
  · refine ⟨dirname prev, ?_⟩
    rw [buildStack_eq]
    exact List.mem_append_left _ (List.mem_map_of_mem _ h1)
  · refine ⟨dirname prev, ?_⟩
    rw [buildStack_eq]
    exact List.mem_append_right _ (List.mem_map_of_mem _ h1)
  · obtain ⟨b, L, hbl⟩ :=
      List.exists_cons_of_ne_nil (includesOf_ne_nil ip prev root)
    refine ⟨b, ?_⟩
    unfold resolveCall
    rw [run_exec_head, buildStack_eq, hbl]
    rfl

/-- Environment exhibiting the lost-error behavior: stat always fails,
and module resolution reports an error only from base directory a,
while every other base reports error-free absence. -/
def envErrLost : Env :=
  { stat := fun _ => (some "ENOENT", none)
  , nodeRes := fun _ base =>
      if base = "a" then (some "resolution failure", none) else (none, none)
  , join := fun b f => b ++ "/" ++ f }

/-- Evaluation of the run loop at an input refuting C2: the package
attempt at base a carries an error and executes, two later error-free
attempts follow, and the call ends with a bare done() instead of the
thrown Could-not-find-file error, because the recursion at line 158 of
the source passes only the current attempt error onward. -/
theorem carried_error_lost_evaluation :
    (runAttempt envErrLost Strategy.nodeS "a" "u" ".scss").1
        = some "resolution failure"
    ∧ (resolveCall envErrLost "" ".scss" [some "a", some "b", some "c"]
        "u" "/p/x.scss").1
      = [(Strategy.localS, "a"), (Strategy.localS, "b"), (Strategy.localS, "c"),
          (Strategy.localS, "/p"), (Strategy.nodeS, "a"), (Strategy.nodeS, "b"),
          (Strategy.nodeS, "c"), (Strategy.nodeS, "/p")]
    ∧ (resolveCall envErrLost "" ".scss" [some "a", some "b", some "c"]
        "u" "/p/x.scss").2
      = [Event.noArgs] :=
  ⟨rfl, rfl, rfl⟩

/-- C3: the package resolver first queries module resolution with the
extension-normalized specifier; only when that query carries no truthy
result does it issue the second query with the original specifier, whose
callback pair — including a carried error on failure — is passed through
unchanged rather than raised. -/
theorem node_two_phase_fallback (env : Env) (base file ext : String) :
    (truthy (env.nodeRes (extension file ext) base).2 = true →
      node env base file ext = (none, (env.nodeRes (extension file ext) base).2)
      ∧ nodeQueries env base file ext = [(extension file ext, base)])
    ∧ (truthy (env.nodeRes (extension file ext) base).2 = false →
      node env base file ext = env.nodeRes file base
      ∧ nodeQueries env base file ext
          = [(extension file ext, base), (file, base)]) := by
  constructor <;> intro h <;>
    exact ⟨by simp [node, h], by simp [nodeQueries, h]⟩

/-- Environment for the C3 witness: the module resolver knows only the
extended specifier. -/
def envNodeHit : Env :=
  { stat := fun _ => (none, none)
  , nodeRes := fun q _ =>
      if q = "f.scss" then (none, some "/m/f.scss") else (none, none)
  , join := fun b f => b ++ "/" ++ f }

/-- Witness for C3: the first query succeeds and its result is returned
with a null error slot. -/
theorem node_two_phase_fallback_witness :
    truthy (Env.nodeRes envNodeHit (extension "f" ".scss") "b").2 = true
    ∧ node envNodeHit "b" "f" ".scss" = (none, some "/m/f.scss") :=
  ⟨by decide, ((node_two_phase_fallback envNodeHit "b" "f" ".scss").1 (by decide)).1⟩

/-- C6: the local resolver returns the joined extension-normalized path
exactly when the existence check succeeds on it, and otherwise reports
absence; its error slot is always null, and in particular any stat error
is folded into plain absence and never escalated. -/
theorem local_absence_never_escalated (env : Env) (base file ext : String) :
    (localResolve env base file ext).1 = none
    ∧ (existsCheck env (extension (env.join base file) ext) = true →
        localResolve env base file ext
          = (none, some (extension (env.join base file) ext)))
    ∧ (existsCheck env (extension (env.join base file) ext) = false →
        localResolve env base file ext = (none, none))
    ∧ ((env.stat (extension (env.join base file) ext)).1.isSome = true →
        localResolve env base file ext = (none, none)) := by
  refine ⟨?_, ?_, ?_, ?_⟩
  · by_cases h : existsCheck env (extension (env.join base file) ext) = true
    · simp [localResolve, h]
    · simp [localResolve, h]
  · intro h
    simp [localResolve, h]
  · intro h
    simp [localResolve, h]
  · intro h
    have hfalse : existsCheck env (extension (env.join base file) ext) = false := by
      unfold existsCheck
      rcases hs : (env.stat (extension (env.join base file) ext)).1 with _ | v
      · rw [hs] at h
        simp at h
      · rfl
    simp [localResolve, hfalse]

/-- Environment for the C6 witness: every stat succeeds. -/
def envStatOk : Env :=
  { stat := fun _ => (none, some ())
  , nodeRes := fun _ _ => (none, none)
  , join := fun b f => b ++ "/" ++ f }

/-- Witness for C6: with a succeeding stat, the local resolver returns
the joined extension-normalized path and a null error. -/
theorem local_absence_never_escalated_witness :
    existsCheck envStatOk (extension (Env.join envStatOk "b" "f") ".x") = true
    ∧ localResolve envStatOk "b" "f" ".x" = (none, some "b/f.x") :=
  ⟨rfl, ((local_absence_never_escalated envStatOk "b" "f" ".x").2.1 rfl)⟩

/-- C9: the factory defaults root to the working directory and ext to
.scss, keeps a supplied extension that already starts with a dot, and
prepends a dot otherwise; the configuration is the pair fixed at factory
time. -/
theorem importer_factory_defaults (cwd r e : String) :
    importerConfig cwd none none = (cwd, ".scss")
    ∧ importerConfig cwd (some r) none = (r, ".scss")
    ∧ (importerConfig cwd none (some e)).1 = cwd
    ∧ (charAt e 0 = "." → (importerConfig cwd (some r) (some e)).2 = e)
    ∧ (charAt e 0 ≠ "." → (importerConfig cwd (some r) (some e)).2 = "." ++ e) := by
  refine ⟨rfl, rfl, rfl, ?_, ?_⟩
  · intro h
    simp [importerConfig, h]
  · intro h
    simp [importerConfig, h]

/-- Witness for C9: a supplied extension without a leading dot gets one
prepended. -/
theorem importer_factory_defaults_witness :
    charAt "scss" 0 ≠ "."
    ∧ (importerConfig "/cwd" (some "/r") (some "scss")).2 = ".scss" :=
  ⟨by decide, (importer_factory_defaults "/cwd" "/r" "scss").2.2.2.2 (by decide)⟩
